import Mathlib

/-!
Verification development for the visiting-card bot repository
(`main.py` and `telebot.py`).  The Python functions that the claims
concern are shallowly embedded as executable Lean definitions:

* `clean_text`       — `main.py` lines 91-107 (`clean_text`)
* `extract_phone`    — `main.py` lines 111-113 (`extract_phone`)
* `safe_json_load`   — `main.py` lines 129-139 (`safe_json_load`)
* `aiExtractMain`    — `main.py` lines 143-182 (`ai_extract`)
* `aiExtractTb`      — `telebot.py` lines 63-95 (`ai_extract`)
* `mergeCard`        — `main.py` lines 241-251 / `telebot.py` lines 170-180
* `name_guess`       — `main.py` lines 260-261 (module-level fragment)
* `contextPut`       — dict write `user_context[chat_id] = final_data`
* `textHandler`      — `main.py` lines 311-348 / `telebot.py` lines 188-196

Machine-level caveats: character classes (`\s`, `\d`, `\w`) are modelled
at ASCII level, and the JSON parser models `json.loads` on the JSON
subset exchanged with the model (strings, integers, booleans, null,
arrays, objects).
-/

/-- ASCII model of Python's regex class `\s` (also used by `str.strip`). -/
def isWsP (c : Char) : Bool :=
  c == ' ' || c == '\t' || c == '\n' || c == '\r' || c == '\x0b' || c == '\x0c'

/-- ASCII model of Python's regex class `\w`. -/
def isWordChar (c : Char) : Bool :=
  c.isAlphanum || c == '_'

/-- `startsWith pat s` : does `s` begin with `pat`? -/
def startsWith : List Char → List Char → Bool
  | [], _ => true
  | _ :: _, [] => false
  | p :: ps, x :: xs => p == x && startsWith ps xs

/-- Fuel-indexed engine of Python's `str.replace`: leftmost,
non-overlapping replacement of `pat` by `rep`.  The fuel is an upper
bound on the number of characters still to scan. -/
def replAllF (pat rep : List Char) : Nat → List Char → List Char
  | 0, s => s
  | _ + 1, [] => []
  | f + 1, c :: cs =>
    if startsWith pat (c :: cs) then
      rep ++ replAllF pat rep f (List.drop (pat.length - 1) cs)
    else
      c :: replAllF pat rep f cs

/-- Python's `s.replace(pat, rep)` (for non-empty `pat`). -/
def replAll (pat rep : List Char) (s : List Char) : List Char :=
  replAllF pat rep s.length s

/-- Fuel-indexed engine of `re.sub(r"\s{2,}", " ", ·)`: every maximal
run of two or more whitespace characters becomes one space; a single
whitespace character is left unchanged. -/
def collapseF : Nat → List Char → List Char
  | 0, s => s
  | _ + 1, [] => []
  | _ + 1, [c] => [c]
  | f + 1, a :: b :: t =>
    if isWsP a && isWsP b then
      ' ' :: collapseF f (List.dropWhile isWsP t)
    else
      a :: collapseF f (b :: t)

/-- `re.sub(r"\s{2,}", " ", s)` from `clean_text`. -/
def collapseWs (s : List Char) : List Char :=
  collapseF s.length s

/-- Drop trailing whitespace (the right half of Python's `str.strip`). -/
def dropTrailWs : List Char → List Char
  | [] => []
  | c :: cs =>
    match dropTrailWs cs with
    | [] => if isWsP c then [] else [c]
    | x :: xs => c :: x :: xs

/-- Python's `str.strip()`. -/
def pyStrip (s : List Char) : List Char :=
  dropTrailWs (List.dropWhile isWsP s)

/-- The ordered substitution table of `clean_text` (`main.py` lines
93-105), applied in dict insertion order: `"(at)"→"@"`, `"[at]"→"@"`,
`" at "→"@"`, `" dot "→"."`, `"|"→"1"`, `"I"→"1"`, `"l"→"1"`,
`"O"→"0"`, `"o"→"0"`. -/
def tableApply (s : List Char) : List Char :=
  replAll ['o'] ['0']
    (replAll ['O'] ['0']
      (replAll ['l'] ['1']
        (replAll ['I'] ['1']
          (replAll ['|'] ['1']
            (replAll [' ', 'd', 'o', 't', ' '] ['.']
              (replAll [' ', 'a', 't', ' '] ['@']
                (replAll ['[', 'a', 't', ']'] ['@']
                  (replAll ['(', 'a', 't', ')'] ['@'] s))))))))

/-- `clean_text` on character lists: newline replacement, substitution
table, whitespace collapsing, strip (`main.py` lines 91-107). -/
def clean_list (s : List Char) : List Char :=
  pyStrip (collapseWs (tableApply (replAll ['\n'] [' '] s)))

/-- `clean_text` from `main.py` lines 91-107. -/
def clean_text (s : String) : String :=
  String.mk (clean_list s.data)

/-- `true` iff the list starts with a whitespace character. -/
def headWs : List Char → Bool
  | [] => false
  | c :: _ => isWsP c

/-- `true` iff the list ends with a whitespace character. -/
def lastWs : List Char → Bool
  | [] => false
  | [c] => isWsP c
  | _ :: c :: t => lastWs (c :: t)

/-- `true` iff no two adjacent characters are both whitespace. -/
def okRun : List Char → Bool
  | [] => true
  | [_] => true
  | a :: b :: t => !(isWsP a && isWsP b) && okRun (b :: t)

/-- JSON values as exchanged with the language-model service
(model of the Python objects produced by `json.loads` on the JSON
subset the repository's data uses). -/
inductive JVal where
  | str (s : String)
  | num (n : Int)
  | bool (b : Bool)
  | null
  | arr (xs : List JVal)
  | obj (kvs : List (String × JVal))

/-- JSON whitespace accepted by `json.loads` between tokens. -/
def jsWs (c : Char) : Bool :=
  c == ' ' || c == '\t' || c == '\n' || c == '\r'

/-- Map a JSON escape character to the character it denotes. -/
def unescape (c : Char) : Option Char :=
  if c == '\"' then some '\"'
  else if c == '\\' then some '\\'
  else if c == '/' then some '/'
  else if c == 'n' then some '\n'
  else if c == 't' then some '\t'
  else if c == 'r' then some '\r'
  else none

/-- Parse the body of a JSON string literal (after the opening quote),
returning the decoded characters and the input after the closing
quote. -/
def parseStrAux : List Char → Option (List Char × List Char)
  | [] => none
  | '\\' :: [] => none
  | '\\' :: e :: r =>
    match unescape e with
    | some d => (parseStrAux r).map (fun p => (d :: p.1, p.2))
    | none => none
  | c :: r =>
    if c == '\"' then some ([], r)
    else (parseStrAux r).map (fun p => (c :: p.1, p.2))

/-- Accumulate leading decimal digits into a natural number. -/
def parseDigitsAux : Nat → List Char → (Nat × List Char × Bool)
  | acc, [] => (acc, [], false)
  | acc, c :: r =>
    if c.isDigit then
      match parseDigitsAux (acc * 10 + (c.toNat - '0'.toNat)) r with
      | (n, rest, _) => (n, rest, true)
    else (acc, c :: r, false)

mutual

/-- Fuel-indexed recursive-descent parser for a JSON value. -/
def parseV : Nat → List Char → Option (JVal × List Char)
  | 0, _ => none
  | f + 1, s =>
    match List.dropWhile jsWs s with
    | [] => none
    | '\"' :: r => (parseStrAux r).map (fun p => (JVal.str (String.mk p.1), p.2))
    | '\x7b' :: r =>
      match List.dropWhile jsWs r with
      | '\x7d' :: r2 => some (JVal.obj [], r2)
      | r1 => (parseObjItems f r1).map (fun p => (JVal.obj p.1, p.2))
    | '[' :: r =>
      match List.dropWhile jsWs r with
      | ']' :: r2 => some (JVal.arr [], r2)
      | r1 => (parseArrItems f r1).map (fun p => (JVal.arr p.1, p.2))
    | 'n' :: 'u' :: 'l' :: 'l' :: r => some (JVal.null, r)
    | 't' :: 'r' :: 'u' :: 'e' :: r => some (JVal.bool true, r)
    | 'f' :: 'a' :: 'l' :: 's' :: 'e' :: r => some (JVal.bool false, r)
    | '-' :: r =>
      match parseDigitsAux 0 r with
      | (n, rest, true) => some (JVal.num (-(n : Int)), rest)
      | (_, _, false) => none
    | c :: r =>
      if c.isDigit then
        match parseDigitsAux 0 (c :: r) with
        | (n, rest, _) => some (JVal.num (n : Int), rest)
      else none

/-- Parse a comma-separated list of array elements up to `]`. -/
def parseArrItems : Nat → List Char → Option (List JVal × List Char)
  | 0, _ => none
  | f + 1, s =>
    match parseV f s with
    | none => none
    | some (v, r) =>
      match List.dropWhile jsWs r with
      | ',' :: r2 => (parseArrItems f r2).map (fun p => (v :: p.1, p.2))
      | ']' :: r2 => some ([v], r2)
      | _ => none

/-- Parse a comma-separated list of object members up to the closing
brace. -/
def parseObjItems : Nat → List Char → Option (List (String × JVal) × List Char)
  | 0, _ => none
  | f + 1, s =>
    match List.dropWhile jsWs s with
    | '\"' :: r =>
      match parseStrAux r with
      | none => none
      | some (k, r1) =>
        match List.dropWhile jsWs r1 with
        | ':' :: r2 =>
          match parseV f r2 with
          | none => none
          | some (v, r3) =>
            match List.dropWhile jsWs r3 with
            | ',' :: r4 => (parseObjItems f r4).map (fun p => ((String.mk k, v) :: p.1, p.2))
            | '\x7d' :: r4 => some ([(String.mk k, v)], r4)
            | _ => none
        | _ => none
    | _ => none

end

/-- Model of Python's `json.loads` on a whole document: parse one value
and require only whitespace to remain. -/
def jsonParse (s : String) : Option JVal :=
  match parseV (s.data.length + 1) s.data with
  | some (v, rest) => if (List.dropWhile jsWs rest).isEmpty then some v else none
  | none => none

/-- Index of the first occurrence of `c`, if any. -/
def firstIdxOf (c : Char) : List Char → Option Nat
  | [] => none
  | x :: xs => if x == c then some 0 else (firstIdxOf c xs).map (· + 1)

/-- Index of the last occurrence of `c`, if any. -/
def lastIdxOf (c : Char) : List Char → Option Nat
  | [] => none
  | x :: xs =>
    match lastIdxOf c xs with
    | some n => some (n + 1)
    | none => if x == c then some 0 else none

/-- The span matched by `re.search(r"\x7b.*\x7d", text, re.DOTALL)`:
from the first opening brace to the last closing brace, when the
former precedes the latter. -/
def braceSlice (s : List Char) : Option (List Char) :=
  match firstIdxOf '\x7b' s, lastIdxOf '\x7d' s with
  | some i, some j => if i < j then some ((s.drop i).take (j - i + 1)) else none
  | _, _ => none

/-- `safe_json_load` from `main.py` lines 129-139: strict parse first,
then parse of the greedy first-brace-to-last-brace substring; `none`
models Python's `None` result.  A document that is the literal `null`
parses to Python `None`, indistinguishable from the failure result, so
it also maps to `none` (the brace substring can never parse to
`null`). -/
def safe_json_load (s : String) : Option JVal :=
  match jsonParse s with
  | some JVal.null => none
  | some v => some v
  | none =>
    match braceSlice s.data with
    | some sub => jsonParse (String.mk sub)
    | none => none

/-- `checkDigits n s` : do the first `n` characters of `s` exist and
are they all decimal digits? -/
def checkDigits : Nat → List Char → Bool
  | 0, _ => true
  | _ + 1, [] => false
  | n + 1, c :: cs => c.isDigit && checkDigits n cs

/-- The first `n` characters of `s` (used to report a regex match). -/
def grab : Nat → List Char → List Char
  | 0, _ => []
  | _ + 1, [] => []
  | n + 1, c :: cs => c :: grab n cs

/-- First alternative of the phone pattern, `\+91[\s\-]?\d{10}`,
anchored at the head of `s`; the optional separator is tried greedily
first, as the regex engine does. -/
def alt1 : List Char → Option (List Char)
  | '+' :: '9' :: '1' :: rest =>
    match rest with
    | c :: rest2 =>
      if (isWsP c || c == '-') && checkDigits 10 rest2 then
        some ('+' :: '9' :: '1' :: c :: grab 10 rest2)
      else if checkDigits 10 rest then
        some ('+' :: '9' :: '1' :: grab 10 rest)
      else none
    | [] => none
  | _ => none

/-- Second alternative of the phone pattern, `\b\d{10}\b`, anchored at
the head of `s`; `prev` is the character just before `s` (`none` at
the start of the text) and decides the left word boundary. -/
def alt2 (prev : Option Char) (s : List Char) : Option (List Char) :=
  if (match prev with | none => true | some p => !isWordChar p)
      && checkDigits 10 s
      && (match s.drop 10 with | [] => true | d :: _ => !isWordChar d) then
    some (grab 10 s)
  else none

/-- Scan for the leftmost match of
`(\+91[\s\-]?\d{10}|\b\d{10}\b)`, trying the first alternative before
the second at each position, as `re.findall` does. -/
def scanPhone : Option Char → List Char → Option (List Char)
  | _, [] => none
  | prev, c :: cs =>
    match alt1 (c :: cs) with
    | some m => some m
    | none =>
      match alt2 prev (c :: cs) with
      | some m => some m
      | none => scanPhone (some c) cs

/-- `extract_phone` from `main.py` lines 111-113: first regex match,
sentinel otherwise. -/
def extract_phone (text : String) : String :=
  match scanPhone none text.data with
  | some m => String.mk m
  | none => "Not Found"

/-- `containsSeq pat s` : does `pat` occur as a contiguous substring of
`s`? -/
def containsSeq (pat : List Char) : List Char → Bool
  | [] => pat.isEmpty
  | c :: cs => startsWith pat (c :: cs) || containsSeq pat cs

/-- The deterministic extraction triple `regex_data`
(`{Phone, Email, Website}`), each entry a matched string or the
sentinel. -/
structure RegexData where
  Phone : String
  Email : String
  Website : String
deriving DecidableEq

/-- The structured `final_data` record built by the image handler. -/
structure Record where
  Name : JVal
  Designation : JVal
  Company : JVal
  Phone : JVal
  Email : JVal
  Website : JVal
  Address : JVal
  Industry : JVal
  Services : JVal

/-- Python `dict.get k d` on a dict built from parsed JSON members in
order (later duplicate keys overwrite earlier ones, hence the lookup on
the reversed list). -/
def dget (kvs : List (String × JVal)) (k : String) (d : JVal) : JVal :=
  match List.lookup k kvs.reverse with
  | some v => v
  | none => d

/-- The live merge of `image_handler` (`main.py` lines 241-251 and
`telebot.py` lines 170-180): Name/Designation/Company/Address/Industry/
Services via `ai_data.get(key, "Not Found")`, Phone/Email/Website
copied from `regex_data`. -/
def mergeCard (kvs : List (String × JVal)) (rx : RegexData) : Record where
  Name := dget kvs "Name" (JVal.str "Not Found")
  Designation := dget kvs "Designation" (JVal.str "Not Found")
  Company := dget kvs "Company" (JVal.str "Not Found")
  Phone := JVal.str rx.Phone
  Email := JVal.str rx.Email
  Website := JVal.str rx.Website
  Address := dget kvs "Address" (JVal.str "Not Found")
  Industry := dget kvs "Industry" (JVal.str "Not Found")
  Services := dget kvs "Services" (JVal.str "Not Found")

/-- The merge step of `main.py`'s `image_handler` as a function of the
`ai_extract` result: when that result is a JSON object the dict
literal of lines 241-251 is built; when it is `None` (extractor
failure) or any non-dict value, the attribute access `ai_data.get`
raises `AttributeError` and no record is produced (`none`). -/
def mergeMain (ai : Option JVal) (rx : RegexData) : Option Record :=
  match ai with
  | some (JVal.obj kvs) => some (mergeCard kvs rx)
  | _ => none

/-- The nine field values of a record, in sheet order. -/
def recordVals (r : Record) : List JVal :=
  [r.Name, r.Designation, r.Company, r.Phone, r.Email, r.Website,
   r.Address, r.Industry, r.Services]

/-- Outcome of the HTTP round trip to the language-model service:
`failed` covers a transport error, a timeout, a non-JSON body and a
missing `choices` path (everything that raises inside the `try`);
`ok content` is the message content string extracted from a response. -/
inductive Outcome where
  | failed
  | ok (content : String)

/-- `ai_extract` from `main.py` lines 143-182: any exception is
normalized to `None`; on a response the content goes through
`safe_json_load` (which itself yields `None` on unrecoverable
malformation). -/
def aiExtractMain : Outcome → Option JVal
  | .failed => none
  | .ok c => safe_json_load c

/-- The members of the sentinel-fields dict that `telebot.py`'s
`ai_extract` returns from its `except` branch (lines 87-95). -/
def tbFailKvs : List (String × JVal) :=
  [("Name", JVal.str "Not Found"), ("Designation", JVal.str "Not Found"),
   ("Company", JVal.str "Not Found"), ("Address", JVal.str "Not Found"),
   ("Industry", JVal.str "Not Found"), ("Services", JVal.str "Not Found")]

/-- The sentinel-fields dict itself. -/
def tbFail : JVal := JVal.obj tbFailKvs

/-- `ai_extract` from `telebot.py` lines 63-95: strict `json.loads` of
the content; any exception (transport failure or malformed content)
yields the sentinel-fields dict. -/
def aiExtractTb : Outcome → JVal
  | .failed => tbFail
  | .ok c =>
    match jsonParse c with
    | some v => v
    | none => tbFail

/-- `name_guess` from the module-level fragment at `main.py` lines
260-261: first two space-separated tokens of the normalized text
(Python `split(" ")` semantics, keeping empty tokens), or the sentinel
when the token list is empty. -/
def splitSp : List Char → List (List Char)
  | [] => [[]]
  | c :: cs =>
    if c == ' ' then [] :: splitSp cs
    else
      match splitSp cs with
      | [] => [[c]]
      | h :: t => (c :: h) :: t

/-- Join token lists with single spaces (Python `" ".join`). -/
def joinSp : List (List Char) → List Char
  | [] => []
  | [x] => x
  | x :: y :: t => x ++ ' ' :: joinSp (y :: t)

/-- The fallback Name heuristic of `main.py` lines 260-261. -/
def name_guess (cleaned : String) : String :=
  let g := (splitSp cleaned.data).take 2
  if g.isEmpty then "Not Found" else String.mk (joinSp g)

/-- Writing `user_context[chat_id] = final_data` on the process-wide
context dict, modelled as a map update. -/
def contextPut (m : Nat → Option Record) (c : Nat) (r : Record) : Nat → Option Record :=
  fun c' => if c' = c then some r else m c'

/-- Observable behaviour of the follow-up text handler: either the
"send an image first" reply, or a language-model query grounded in the
stored record's Company/Industry/Services plus the question. -/
inductive TextAction where
  | promptForImage
  | llmQuery (company industry services : JVal) (question : String)

/-- `text_handler` from `main.py` lines 311-348 (`telebot.py` lines
188-196 has the same shape): with no stored record the handler replies
asking for an image and returns (lines 313-315); otherwise it builds
the grounding prompt from the stored record's Company/Industry/Services
plus the question and queries the model. -/
def textHandler (store : Nat → Option Record) (chatId : Nat) (question : String) :
    TextAction :=
  match store chatId with
  | none => TextAction.promptForImage
  | some r => TextAction.llmQuery r.Company r.Industry r.Services question

/-- The matched-substring pattern `"+91 9876543210"` used by the phone
claims, as an explicit character list. -/
def pat91 : List Char :=
  ['+', '9', '1', ' ', '9', '8', '7', '6', '5', '4', '3', '2', '1', '0']

/-- The model-response content of the embedded-JSON example: a JSON
object surrounded by noise text. -/
def c5content : String :=
  "Here you go: \x7b\"Name\":\"Amit Shah\",\"Designation\":\"CEO\",\"Company\":\"Acme\",\"Address\":\"\",\"Industry\":\"Tech\",\"Services\":[\"Consulting\"]\x7d thanks"

/-- The members of the object embedded in `c5content`. -/
def c5kvs : List (String × JVal) :=
  [("Name", JVal.str "Amit Shah"), ("Designation", JVal.str "CEO"),
   ("Company", JVal.str "Acme"), ("Address", JVal.str ""),
   ("Industry", JVal.str "Tech"), ("Services", JVal.arr [JVal.str "Consulting"])]

/-- A model response that explicitly returns every field empty, as the
prompt of `main.py` instructs for unknown fields. -/
def emptyFieldsContent : String :=
  "\x7b\"Name\":\"\",\"Designation\":\"\",\"Company\":\"\",\"Address\":\"\",\"Industry\":\"\",\"Services\":[]\x7d"

/-- The object denoted by `emptyFieldsContent`. -/
def emptyFieldsObj : JVal :=
  JVal.obj [("Name", JVal.str ""), ("Designation", JVal.str ""),
            ("Company", JVal.str ""), ("Address", JVal.str ""),
            ("Industry", JVal.str ""), ("Services", JVal.arr [])]

/-- A model response whose content is exactly the sentinel-fields
object that `telebot.py`'s prompt asks for when data is missing. -/
def tbSentinelContent : String :=
  "\x7b\"Name\":\"Not Found\",\"Designation\":\"Not Found\",\"Company\":\"Not Found\",\"Address\":\"Not Found\",\"Industry\":\"Not Found\",\"Services\":\"Not Found\"\x7d"

/-- An all-sentinel deterministic triple (no regex match at all). -/
def rxNF : RegexData := ⟨"Not Found", "Not Found", "Not Found"⟩

/-- A sample record used to exercise the context store. -/
def recA : Record := mergeCard [("Name", JVal.str "Asha")] rxNF

/-- A second, distinct sample record for the context store. -/
def recB : Record := mergeCard [("Name", JVal.str "Ravi")] rxNF

/-! ### Lemmas about the substitution engine -/

theorem mem_replAllF (pat rep : List Char) (x : Char) :
    ∀ (f : Nat) (s : List Char), x ∈ replAllF pat rep f s → x ∈ s ∨ x ∈ rep := by
  intro f
  induction f with
  | zero => exact fun s h => Or.inl h
  | succ f ih =>
    intro s h
    match s with
    | [] => simp [replAllF] at h
    | c :: cs =>
      simp only [replAllF] at h
      split at h
      · rcases List.mem_append.mp h with hr | hs
        · exact Or.inr hr
        · rcases ih _ hs with hd | hr
          · exact Or.inl (List.mem_cons_of_mem c (List.mem_of_mem_drop hd))
          · exact Or.inr hr
      · rcases List.mem_cons.mp h with rfl | hs
        · exact Or.inl (List.mem_cons_self x cs)
        · rcases ih _ hs with hd | hr
          · exact Or.inl (List.mem_cons_of_mem c hd)
          · exact Or.inr hr

theorem mem_replAll (pat rep : List Char) (x : Char) (s : List Char)
    (h : x ∈ replAll pat rep s) : x ∈ s ∨ x ∈ rep :=
  mem_replAllF pat rep x s.length s h

theorem startsWith_single (c c' : Char) (cs : List Char) :
    startsWith [c] (c' :: cs) = (c == c') := by
  simp [startsWith]

theorem replAllF_elim (c : Char) (rep : List Char) (hc : c ∉ rep) :
    ∀ (f : Nat) (s : List Char), s.length ≤ f → c ∉ replAllF [c] rep f s := by
  intro f
  induction f with
  | zero =>
    intro s hl
    rw [List.length_eq_zero.mp (Nat.le_zero.mp hl)]
    simp [replAllF]
  | succ f ih =>
    intro s hl
    match s with
    | [] => simp [replAllF]
    | c' :: cs =>
      simp only [replAllF]
      split
      · next hst =>
        rw [startsWith_single] at hst
        intro hmem
        rcases List.mem_append.mp hmem with hr | hs
        · exact hc hr
        · have : c ∉ replAllF [c] rep f cs := by
            have := ih cs (Nat.le_of_succ_le_succ (by simpa using hl))
            exact this
          simp only [List.length_cons, Nat.add_sub_cancel, List.drop] at hs
          exact this (by simpa using hs)
      · next hst =>
        rw [startsWith_single] at hst
        intro hmem
        rcases List.mem_cons.mp hmem with rfl | hs
        · exact hst (by simp)
        · exact ih cs (Nat.le_of_succ_le_succ (by simpa using hl)) hs

theorem replAll_elim (c : Char) (rep : List Char) (hc : c ∉ rep) (s : List Char) :
    c ∉ replAll [c] rep s :=
  replAllF_elim c rep hc s.length s (Nat.le_refl _)

theorem replAllF_id (c : Char) (rep : List Char) :
    ∀ (f : Nat) (s : List Char), c ∉ s → replAllF [c] rep f s = s := by
  intro f
  induction f with
  | zero => intro s _; rfl
  | succ f ih =>
    intro s hns
    match s with
    | [] => rfl
    | c' :: cs =>
      have hne : ¬(c == c') = true := by
        simp only [beq_iff_eq]
        intro h
        exact hns (h ▸ List.mem_cons_self c' cs)
      simp only [replAllF, startsWith_single, hne, if_false, Bool.false_eq_true]
      rw [ih cs (fun h => hns (List.mem_cons_of_mem c' h))]

theorem replAll_id (c : Char) (rep : List Char) (s : List Char) (h : c ∉ s) :
    replAll [c] rep s = s :=
  replAllF_id c rep s.length s h

/-! ### Lemmas about whitespace collapsing and stripping -/

theorem okRun_cons (c : Char) (r : List Char) :
    okRun (c :: r) = (!(isWsP c && headWs r) && okRun r) := by
  match r with
  | [] => simp [okRun, headWs]
  | b :: t => simp [okRun, headWs]

theorem lastWs_cons (c : Char) (r : List Char) :
    lastWs (c :: r) = (if r.isEmpty then isWsP c else lastWs r) := by
  match r with
  | [] => simp [lastWs]
  | b :: t => simp [lastWs]

theorem headWs_dropWhile (l : List Char) :
    headWs (List.dropWhile isWsP l) = false := by
  induction l with
  | nil => rfl
  | cons c cs ih =>
    by_cases h : isWsP c = true
    · rw [List.dropWhile_cons_of_pos h]; exact ih
    · rw [List.dropWhile_cons_of_neg h]
      simpa [headWs] using h

theorem dropWhile_ws_id (l : List Char) (h : headWs l = false) :
    List.dropWhile isWsP l = l := by
  match l with
  | [] => rfl
  | c :: cs =>
    simp only [headWs] at h
    rw [List.dropWhile_cons_of_neg (by simp [h])]

theorem headWs_collapseF (f : Nat) (s : List Char)
    (h : headWs (collapseF f s) = true) : headWs s = true := by
  match f, s with
  | 0, s => exact h
  | _ + 1, [] => exact h
  | _ + 1, [c] => exact h
  | f + 1, a :: b :: t =>
    simp only [collapseF] at h
    split at h
    · next hab =>
      simp only [headWs]
      exact (Bool.and_eq_true_iff.mp hab).1
    · next hab => exact h

theorem okRun_collapseF :
    ∀ (f : Nat) (s : List Char), s.length ≤ f → okRun (collapseF f s) = true := by
  intro f
  induction f with
  | zero =>
    intro s hl
    rw [List.length_eq_zero.mp (Nat.le_zero.mp hl)]
    rfl
  | succ f ih =>
    intro s hl
    match s with
    | [] => rfl
    | [c] => rfl
    | a :: b :: t =>
      simp only [collapseF]
      split
      · next hab =>
        rw [okRun_cons]
        have htl : (List.dropWhile isWsP t).length ≤ f := by
          calc (List.dropWhile isWsP t).length ≤ t.length :=
                (List.dropWhile_sublist isWsP).length_le
            _ ≤ f := by simpa using Nat.le_of_succ_le_succ (Nat.le_of_succ_le hl)
        have hok := ih _ htl
        have hhd : headWs (collapseF f (List.dropWhile isWsP t)) = false := by
          cases hh : headWs (collapseF f (List.dropWhile isWsP t))
          · rfl
          · have := headWs_collapseF f _ hh
            rw [headWs_dropWhile] at this
            exact absurd this (by simp)
        simp [hok, hhd]
      · next hab =>
        rw [okRun_cons]
        have hbt : (b :: t).length ≤ f := by simpa using Nat.le_of_succ_le_succ hl
        have hok := ih _ hbt
        have hnab : ¬(isWsP a = true ∧ isWsP b = true) := by
          intro ⟨h1, h2⟩; exact hab (by simp [h1, h2])
        by_cases hb : isWsP b = true
        · have ha : isWsP a = false := by
            cases hh : isWsP a
            · rfl
            · exact absurd ⟨hh, hb⟩ hnab
          simp [hok, ha]
        · have hhd : headWs (collapseF f (b :: t)) = false := by
            cases hh : headWs (collapseF f (b :: t))
            · rfl
            · have := headWs_collapseF f _ hh
              simp only [headWs] at this
              exact absurd this (by simp [hb])
          simp [hok, hhd]

theorem okRun_collapseWs (s : List Char) : okRun (collapseWs s) = true :=
  okRun_collapseF s.length s (Nat.le_refl _)

theorem okRun_tail (c : Char) (l : List Char) (h : okRun (c :: l) = true) :
    okRun l = true := by
  rw [okRun_cons] at h
  exact (Bool.and_eq_true_iff.mp h).2

theorem collapseF_id :
    ∀ (f : Nat) (s : List Char), okRun s = true → collapseF f s = s := by
  intro f
  induction f with
  | zero => intro s _; rfl
  | succ f ih =>
    intro s hok
    match s with
    | [] => rfl
    | [c] => rfl
    | a :: b :: t =>
      have hnab : ¬(isWsP a && isWsP b) = true := by
        intro hab
        simp only [okRun, hab, Bool.not_true, Bool.false_and] at hok
        exact Bool.false_ne_true hok
      simp only [collapseF]
      rw [if_neg hnab]
      rw [ih (b :: t) (okRun_tail a _ hok)]

theorem collapseWs_id (s : List Char) (h : okRun s = true) : collapseWs s = s :=
  collapseF_id s.length s h

theorem mem_collapseF (x : Char) :
    ∀ (f : Nat) (s : List Char), x ∈ collapseF f s → x ∈ s ∨ x = ' ' := by
  intro f
  induction f with
  | zero => exact fun s h => Or.inl h
  | succ f ih =>
    intro s h
    match s with
    | [] => exact Or.inl h
    | [c] => exact Or.inl h
    | a :: b :: t =>
      simp only [collapseF] at h
      split at h
      · rcases List.mem_cons.mp h with rfl | hs
        · exact Or.inr rfl
        · rcases ih _ hs with hd | hsp
          · exact Or.inl (by
              have : x ∈ t := (List.dropWhile_sublist isWsP).mem hd
              exact List.mem_cons_of_mem a (List.mem_cons_of_mem b this))
          · exact Or.inr hsp
      · rcases List.mem_cons.mp h with rfl | hs
        · exact Or.inl (List.mem_cons_self x (b :: t))
        · rcases ih _ hs with hd | hsp
          · exact Or.inl (List.mem_cons_of_mem a hd)
          · exact Or.inr hsp

theorem mem_collapseWs (x : Char) (s : List Char) (h : x ∈ collapseWs s) :
    x ∈ s ∨ x = ' ' :=
  mem_collapseF x s.length s h

theorem dropTrailWs_cons (c : Char) (cs : List Char) :
    dropTrailWs (c :: cs) = match dropTrailWs cs with
      | [] => if isWsP c = true then [] else [c]
      | x :: xs => c :: x :: xs := rfl

theorem dropTrailWs_head (l : List Char) (x : Char) (xs : List Char)
    (h : dropTrailWs l = x :: xs) : ∃ t, l = x :: t := by
  match l with
  | [] => exact absurd h (by simp [dropTrailWs])
  | c :: cs =>
    refine ⟨cs, ?_⟩
    rw [dropTrailWs_cons] at h
    rcases hcs : dropTrailWs cs with _ | ⟨y, ys⟩ <;> rw [hcs] at h
    · by_cases hw : isWsP c = true
      · rw [if_pos hw] at h
        exact absurd h (by simp)
      · rw [if_neg hw] at h
        injection h with h1 _
        rw [h1]
    · injection h with h1 _
      rw [h1]

theorem lastWs_dropTrailWs (l : List Char) : lastWs (dropTrailWs l) = false := by
  induction l with
  | nil => rfl
  | cons c cs ih =>
    rw [dropTrailWs_cons]
    rcases hcs : dropTrailWs cs with _ | ⟨y, ys⟩
    · by_cases hw : isWsP c = true
      · rw [if_pos hw]; rfl
      · rw [if_neg hw]
        simp only [lastWs]
        cases hb : isWsP c
        · rfl
        · exact absurd hb hw
    · rw [hcs] at ih
      simpa [lastWs] using ih

theorem okRun_dropTrailWs (l : List Char) (h : okRun l = true) :
    okRun (dropTrailWs l) = true := by
  induction l with
  | nil => rfl
  | cons c cs ih =>
    have hok := ih (okRun_tail c cs h)
    rw [dropTrailWs_cons]
    rcases hcs : dropTrailWs cs with _ | ⟨y, ys⟩
    · by_cases hw : isWsP c = true
      · rw [if_pos hw]; rfl
      · rw [if_neg hw]; rfl
    · rw [hcs] at hok
      rcases dropTrailWs_head cs y ys hcs with ⟨t, ht⟩
      rw [okRun_cons] at h ⊢
      rw [ht] at h
      simp only [headWs] at h ⊢
      rcases Bool.and_eq_true_iff.mp h with ⟨h1, _⟩
      simp [h1, hok]

theorem mem_dropTrailWs (x : Char) (l : List Char) (h : x ∈ dropTrailWs l) :
    x ∈ l := by
  induction l with
  | nil => simp [dropTrailWs] at h
  | cons c cs ih =>
    rw [dropTrailWs_cons] at h
    rcases hcs : dropTrailWs cs with _ | ⟨y, ys⟩ <;> rw [hcs] at h
    · by_cases hw : isWsP c = true
      · rw [if_pos hw] at h
        exact absurd h (by simp)
      · rw [if_neg hw] at h
        rcases List.mem_cons.mp h with rfl | hf
        · exact List.mem_cons_self x cs
        · exact absurd hf (by simp)
    · rcases List.mem_cons.mp h with rfl | hf
      · exact List.mem_cons_self x cs
      · exact List.mem_cons_of_mem c (ih (by rw [hcs]; exact hf))

theorem dropTrailWs_id (l : List Char) (h : lastWs l = false) :
    dropTrailWs l = l := by
  induction l with
  | nil => rfl
  | cons c cs ih =>
    rcases cs with _ | ⟨y, ys⟩
    · have hw : isWsP c = false := by simpa [lastWs] using h
      simp [dropTrailWs, hw]
    · have h2 : lastWs (y :: ys) = false := by simpa [lastWs] using h
      rw [dropTrailWs_cons, ih h2]

theorem headWs_dropTrailWs (l : List Char) (h : headWs l = false) :
    headWs (dropTrailWs l) = false := by
  rcases hd : dropTrailWs l with _ | ⟨x, xs⟩
  · rfl
  · rcases dropTrailWs_head l x xs hd with ⟨t, ht⟩
    rw [ht] at h
    simpa [headWs] using h

theorem okRun_pyStrip (l : List Char) (h : okRun l = true) :
    okRun (pyStrip l) = true := by
  apply okRun_dropTrailWs
  induction l with
  | nil => exact h
  | cons c cs ih =>
    by_cases hc : isWsP c = true
    · rw [List.dropWhile_cons_of_pos hc]
      exact ih (okRun_tail c cs h)
    · rw [List.dropWhile_cons_of_neg hc]
      exact h

theorem headWs_pyStrip (l : List Char) : headWs (pyStrip l) = false :=
  headWs_dropTrailWs _ (headWs_dropWhile l)

theorem lastWs_pyStrip (l : List Char) : lastWs (pyStrip l) = false :=
  lastWs_dropTrailWs _

theorem mem_pyStrip (x : Char) (l : List Char) (h : x ∈ pyStrip l) : x ∈ l :=
  (List.dropWhile_sublist isWsP).mem (mem_dropTrailWs x _ h)

theorem pyStrip_id (l : List Char) (h1 : headWs l = false) (h2 : lastWs l = false) :
    pyStrip l = l := by
  unfold pyStrip
  rw [dropWhile_ws_id l h1, dropTrailWs_id l h2]

/-! ### Characters that the normalizer can produce or must eliminate -/

theorem mem_tableApply (x : Char) (s : List Char) (h : x ∈ tableApply s) :
    x ∈ s ∨ x = '@' ∨ x = '.' ∨ x = '1' ∨ x = '0' := by
  unfold tableApply at h
  rcases mem_replAll _ _ _ _ h with h | h
  case inr => exact Or.inr (Or.inr (Or.inr (Or.inr (by simpa using h))))
  rcases mem_replAll _ _ _ _ h with h | h
  case inr => exact Or.inr (Or.inr (Or.inr (Or.inr (by simpa using h))))
  rcases mem_replAll _ _ _ _ h with h | h
  case inr => exact Or.inr (Or.inr (Or.inr (Or.inl (by simpa using h))))
  rcases mem_replAll _ _ _ _ h with h | h
  case inr => exact Or.inr (Or.inr (Or.inr (Or.inl (by simpa using h))))
  rcases mem_replAll _ _ _ _ h with h | h
  case inr => exact Or.inr (Or.inr (Or.inr (Or.inl (by simpa using h))))
  rcases mem_replAll _ _ _ _ h with h | h
  case inr => exact Or.inr (Or.inr (Or.inl (by simpa using h)))
  rcases mem_replAll _ _ _ _ h with h | h
  case inr => exact Or.inr (Or.inl (by simpa using h))
  rcases mem_replAll _ _ _ _ h with h | h
  case inr => exact Or.inr (Or.inl (by simpa using h))
  rcases mem_replAll _ _ _ _ h with h | h
  case inr => exact Or.inr (Or.inl (by simpa using h))
  exact Or.inl h

theorem mem_clean_list (x : Char) (s : List Char) (h : x ∈ clean_list s) :
    x ∈ tableApply (replAll ['\n'] [' '] s) ∨ x = ' ' := by
  unfold clean_list at h
  exact mem_collapseWs _ _ (mem_pyStrip _ _ h)

theorem noPipe_tableApply (u : List Char) : '|' ∉ tableApply u := by
  intro h
  unfold tableApply at h
  rcases mem_replAll _ _ _ _ h with h | h
  case inr => exact absurd h (by decide)
  rcases mem_replAll _ _ _ _ h with h | h
  case inr => exact absurd h (by decide)
  rcases mem_replAll _ _ _ _ h with h | h
  case inr => exact absurd h (by decide)
  rcases mem_replAll _ _ _ _ h with h | h
  case inr => exact absurd h (by decide)
  exact replAll_elim '|' ['1'] (by decide) _ h

theorem noCapI_tableApply (u : List Char) : 'I' ∉ tableApply u := by
  intro h
  unfold tableApply at h
  rcases mem_replAll _ _ _ _ h with h | h
  case inr => exact absurd h (by decide)
  rcases mem_replAll _ _ _ _ h with h | h
  case inr => exact absurd h (by decide)
  rcases mem_replAll _ _ _ _ h with h | h
  case inr => exact absurd h (by decide)
  exact replAll_elim 'I' ['1'] (by decide) _ h

theorem noLowL_tableApply (u : List Char) : 'l' ∉ tableApply u := by
  intro h
  unfold tableApply at h
  rcases mem_replAll _ _ _ _ h with h | h
  case inr => exact absurd h (by decide)
  rcases mem_replAll _ _ _ _ h with h | h
  case inr => exact absurd h (by decide)
  exact replAll_elim 'l' ['1'] (by decide) _ h

theorem noCapO_tableApply (u : List Char) : 'O' ∉ tableApply u := by
  intro h
  unfold tableApply at h
  rcases mem_replAll _ _ _ _ h with h | h
  case inr => exact absurd h (by decide)
  exact replAll_elim 'O' ['0'] (by decide) _ h

theorem noLowO_tableApply (u : List Char) : 'o' ∉ tableApply u := by
  intro h
  unfold tableApply at h
  exact replAll_elim 'o' ['0'] (by decide) _ h

theorem mk_data (l : List Char) : (String.mk l).data = l := rfl

theorem clean_text_data (x : String) : (clean_text x).data = clean_list x.data := by
  unfold clean_text
  exact mk_data _

theorem okRun_clean_list (l : List Char) : okRun (clean_list l) = true := by
  unfold clean_list
  exact okRun_pyStrip _ (okRun_collapseWs _)

theorem headWs_clean_list (l : List Char) : headWs (clean_list l) = false := by
  unfold clean_list
  exact headWs_pyStrip _

theorem lastWs_clean_list (l : List Char) : lastWs (clean_list l) = false := by
  unfold clean_list
  exact lastWs_pyStrip _

theorem clean_list_fixed (y : List Char) (hok : okRun y = true)
    (hhd : headWs y = false) (hlw : lastWs y = false) (hnl : '\n' ∉ y)
    (htab : tableApply y = y) : clean_list y = y := by
  unfold clean_list
  rw [replAll_id '\n' [' '] y hnl, htab, collapseWs_id y hok, pyStrip_id y hhd hlw]

theorem noNl_clean_list (s : List Char) : '\n' ∉ clean_list s := by
  intro h
  rcases mem_clean_list _ _ h with h | h
  · rcases mem_tableApply _ _ h with h | h | h | h | h
    · exact replAll_elim '\n' [' '] (by decide) s h
    all_goals exact absurd h (by decide)
  · exact absurd h (by decide)

/-! ### Lemmas about the phone regex scan -/

theorem startsWith_exists (p : List Char) :
    ∀ s : List Char, startsWith p s = true → ∃ t, s = p ++ t := by
  induction p with
  | nil => exact fun s _ => ⟨s, rfl⟩
  | cons c cs ih =>
    intro s h
    match s with
    | [] => exact absurd h (by simp [startsWith])
    | x :: xs =>
      simp only [startsWith, Bool.and_eq_true_iff, beq_iff_eq] at h
      rcases ih xs h.2 with ⟨t, ht⟩
      exact ⟨t, by rw [ht, h.1, List.cons_append]⟩

theorem scanPhone_cons (prev : Option Char) (c : Char) (cs : List Char) :
    scanPhone prev (c :: cs) = match alt1 (c :: cs) with
      | some m => some m
      | none => match alt2 prev (c :: cs) with
        | some m => some m
        | none => scanPhone (some c) cs := rfl

theorem alt1_pat91 (t : List Char) : (alt1 (pat91 ++ t)).isSome = true := rfl

theorem scanPhone_isSome (s : List Char) :
    ∀ prev : Option Char, containsSeq pat91 s = true →
      (scanPhone prev s).isSome = true := by
  induction s with
  | nil => intro prev h; exact absurd h (by decide)
  | cons c cs ih =>
    intro prev h
    rw [scanPhone_cons]
    rcases h1 : alt1 (c :: cs) with _ | m
    · rcases h2 : alt2 prev (c :: cs) with _ | m
      · have hc : containsSeq pat91 cs = true := by
          have hun : (startsWith pat91 (c :: cs) || containsSeq pat91 cs) = true := h
          rcases Bool.or_eq_true_iff.mp hun with hs | hc
          · rcases startsWith_exists pat91 _ hs with ⟨t, ht⟩
            have := alt1_pat91 t
            rw [← ht, h1] at this
            exact absurd this (by simp)
          · exact hc
        exact ih (some c) hc
      · simp
    · simp

theorem checkDigits_head (n : Nat) (s : List Char) (h : checkDigits (n + 1) s = true) :
    ∃ d ds, s = d :: ds ∧ d.isDigit = true := by
  match s with
  | [] => exact absurd h (by simp [checkDigits])
  | d :: ds =>
    simp only [checkDigits, Bool.and_eq_true_iff] at h
    exact ⟨d, ds, rfl, h.1⟩

theorem alt1_head (s m : List Char) (h : alt1 s = some m) : ∃ r, m = '+' :: r := by
  rw [alt1.eq_def] at h
  split at h
  · split at h
    · split at h
      · injection h with h1
        exact ⟨_, h1.symm⟩
      · split at h
        · injection h with h1
          exact ⟨_, h1.symm⟩
        · exact absurd h (by simp)
    · exact absurd h (by simp)
  · exact absurd h (by simp)

theorem alt2_val (prev : Option Char) (s m : List Char) (h : alt2 prev s = some m) :
    ∃ d ds, m = d :: ds ∧ d.isDigit = true := by
  unfold alt2 at h
  split at h
  · next hcond =>
    have hdig : checkDigits 10 s = true := by
      rcases Bool.and_eq_true_iff.mp hcond with ⟨h2, _⟩
      exact (Bool.and_eq_true_iff.mp h2).2
    rcases checkDigits_head 9 s hdig with ⟨d, ds, rfl, hd⟩
    injection h with h1
    exact ⟨d, grab 9 ds, h1.symm, hd⟩
  · exact absurd h (by simp)

theorem scanPhone_val (s : List Char) :
    ∀ (prev : Option Char) (m : List Char), scanPhone prev s = some m →
      (∃ r, m = '+' :: r) ∨ (∃ d ds, m = d :: ds ∧ d.isDigit = true) := by
  induction s with
  | nil => intro prev m h; exact absurd h (by simp [scanPhone])
  | cons c cs ih =>
    intro prev m h
    rw [scanPhone_cons] at h
    rcases h1 : alt1 (c :: cs) with _ | m1 <;> rw [h1] at h
    · rcases h2 : alt2 prev (c :: cs) with _ | m2 <;> rw [h2] at h
      · exact ih (some c) m h
      · injection h with h3
        exact Or.inr (h3 ▸ alt2_val prev _ m2 h2)
    · injection h with h3
      exact Or.inl (h3 ▸ alt1_head _ m1 h1)

/-! ### Lemmas about dict lookup and the merge -/

theorem lookup_mem (k : String) (v : JVal) :
    ∀ l : List (String × JVal), List.lookup k l = some v → (k, v) ∈ l := by
  intro l
  induction l with
  | nil => intro h; exact absurd h (by simp)
  | cons p t ih =>
    intro h
    rcases p with ⟨k', v'⟩
    simp only [List.lookup] at h
    rcases hbe : (k == k') with _ | _
    · rw [hbe] at h
      exact List.mem_cons_of_mem _ (ih h)
    · rw [hbe] at h
      injection h with h1
      have hk : k = k' := by simpa using hbe
      rw [hk, h1]
      exact List.mem_cons_self _ _

theorem dget_cases (kvs : List (String × JVal)) (k : String) (d : JVal) :
    dget kvs k d = d ∨ dget kvs k d ∈ kvs.map Prod.snd := by
  unfold dget
  rcases hl : List.lookup k kvs.reverse with _ | v
  · exact Or.inl rfl
  · right
    have hmem := lookup_mem k v _ hl
    rw [List.mem_reverse] at hmem
    exact List.mem_map_of_mem Prod.snd hmem

theorem mergeMain_det (a : Option JVal) (rx : RegexData) (r : Record)
    (h : mergeMain a rx = some r) :
    r.Phone = JVal.str rx.Phone ∧ r.Email = JVal.str rx.Email ∧
      r.Website = JVal.str rx.Website := by
  match a with
  | none => exact absurd h (by simp [mergeMain])
  | some JVal.null => exact absurd h (by simp [mergeMain])
  | some (JVal.str s) => exact absurd h (by simp [mergeMain])
  | some (JVal.num n) => exact absurd h (by simp [mergeMain])
  | some (JVal.bool b) => exact absurd h (by simp [mergeMain])
  | some (JVal.arr xs) => exact absurd h (by simp [mergeMain])
  | some (JVal.obj kvs) =>
    simp only [mergeMain] at h
    injection h with h1
    rw [← h1]
    exact ⟨rfl, rfl, rfl⟩

/-! ### Claim theorems -/

set_option maxRecDepth 40000
set_option maxHeartbeats 1000000

/-- C1 (amended): for every AI-extractor outcome that is a JSON object,
the live merge builds a record whose nine fields are all present, each
drawn from the AI-supplied values, the three deterministic regex
values, or the sentinel `"Not Found"`; a field the AI supplies as the
empty string passes through unchanged, and on extractor failure
(`None`) `main.py`'s merge produces no record at all because
`ai_data.get` raises. -/
theorem c1_merge_field_provenance (kvs : List (String × JVal)) (rx : RegexData) :
    (∀ v ∈ recordVals (mergeCard kvs rx),
      v ∈ kvs.map Prod.snd ∨ v = JVal.str rx.Phone ∨ v = JVal.str rx.Email ∨
        v = JVal.str rx.Website ∨ v = JVal.str "Not Found") ∧
    mergeMain none rx = none := by
  constructor
  · intro v hv
    simp only [recordVals, mergeCard, List.mem_cons, List.not_mem_nil, or_false] at hv
    rcases hv with rfl | rfl | rfl | rfl | rfl | rfl | rfl | rfl | rfl
    · rcases dget_cases kvs "Name" (JVal.str "Not Found") with h | h
      · exact Or.inr (Or.inr (Or.inr (Or.inr h)))
      · exact Or.inl h
    · rcases dget_cases kvs "Designation" (JVal.str "Not Found") with h | h
      · exact Or.inr (Or.inr (Or.inr (Or.inr h)))
      · exact Or.inl h
    · rcases dget_cases kvs "Company" (JVal.str "Not Found") with h | h
      · exact Or.inr (Or.inr (Or.inr (Or.inr h)))
      · exact Or.inl h
    · exact Or.inr (Or.inl rfl)
    · exact Or.inr (Or.inr (Or.inl rfl))
    · exact Or.inr (Or.inr (Or.inr (Or.inl rfl)))
    · rcases dget_cases kvs "Address" (JVal.str "Not Found") with h | h
      · exact Or.inr (Or.inr (Or.inr (Or.inr h)))
      · exact Or.inl h
    · rcases dget_cases kvs "Industry" (JVal.str "Not Found") with h | h
      · exact Or.inr (Or.inr (Or.inr (Or.inr h)))
      · exact Or.inl h
    · rcases dget_cases kvs "Services" (JVal.str "Not Found") with h | h
      · exact Or.inr (Or.inr (Or.inr (Or.inr h)))
      · exact Or.inl h
  · rfl

/-- Witness for C1: the Name field of a concrete merged record is an
AI value, a regex value, or the sentinel. -/
theorem c1_merge_field_provenance_witness :
    (mergeCard [("Name", JVal.str "Amit")] rxNF).Name ∈
        ([("Name", JVal.str "Amit")].map Prod.snd) ∨
      (mergeCard [("Name", JVal.str "Amit")] rxNF).Name = JVal.str rxNF.Phone ∨
      (mergeCard [("Name", JVal.str "Amit")] rxNF).Name = JVal.str rxNF.Email ∨
      (mergeCard [("Name", JVal.str "Amit")] rxNF).Name = JVal.str rxNF.Website ∨
      (mergeCard [("Name", JVal.str "Amit")] rxNF).Name = JVal.str "Not Found" :=
  (c1_merge_field_provenance [("Name", JVal.str "Amit")] rxNF).1 _
    (by simp [recordVals])

/-- Counterexample for C1 as stated: an AI object carrying an
empty-string Name (exactly what the `main.py` prompt requests for an
unknown field) yields a merged record whose Name is the empty string,
not a real value and not the sentinel. -/
theorem c1_counterexample :
    (mergeCard [("Name", JVal.str "")] rxNF).Name = JVal.str "" ∧
      JVal.str "" ≠ JVal.str "Not Found" := by
  refine ⟨rfl, ?_⟩
  intro h
  injection h with h1
  exact absurd h1 (by decide)

/-- C2: Phone, Email and Website of the merged record depend only on
the deterministic regex triple — two runs over the same `regex_data`
with different AI results agree on these three fields. -/
theorem c2_deterministic_fields_ai_independent (rx : RegexData)
    (a1 a2 : Option JVal) (r1 r2 : Record)
    (h1 : mergeMain a1 rx = some r1) (h2 : mergeMain a2 rx = some r2) :
    r1.Phone = r2.Phone ∧ r1.Email = r2.Email ∧ r1.Website = r2.Website := by
  obtain ⟨p1, e1, w1⟩ := mergeMain_det a1 rx r1 h1
  obtain ⟨p2, e2, w2⟩ := mergeMain_det a2 rx r2 h2
  exact ⟨p1.trans p2.symm, e1.trans e2.symm, w1.trans w2.symm⟩

/-- Witness for C2: even an AI object that tries to supply a "Phone"
key does not change the merged Phone/Email/Website. -/
theorem c2_deterministic_fields_ai_independent_witness :
    (mergeCard [] rxNF).Phone = (mergeCard [("Phone", JVal.str "999")] rxNF).Phone ∧
    (mergeCard [] rxNF).Email = (mergeCard [("Phone", JVal.str "999")] rxNF).Email ∧
    (mergeCard [] rxNF).Website = (mergeCard [("Phone", JVal.str "999")] rxNF).Website :=
  c2_deterministic_fields_ai_independent rxNF
    (some (JVal.obj [])) (some (JVal.obj [("Phone", JVal.str "999")])) _ _ rfl rfl

/-- C3 (amended): `main.py`'s extractor is total and normalizes every
failure to `None`, which is distinct from any successfully parsed
content — including a model response of explicitly empty fields — so
the `main.py` caller can tell failure from explicit emptiness;
`telebot.py`'s extractor (see the counterexample) instead returns an
object of sentinel fields on failure. -/
theorem c3_main_failure_marker_distinct (c : String) (o : JVal)
    (h : safe_json_load c = some o) :
    aiExtractMain (Outcome.ok c) = some o ∧
    aiExtractMain Outcome.failed = none ∧
    aiExtractMain (Outcome.ok c) ≠ aiExtractMain Outcome.failed := by
  refine ⟨h, rfl, ?_⟩
  rw [show aiExtractMain (Outcome.ok c) = safe_json_load c from rfl, h]
  simp [aiExtractMain]

/-- Witness for C3: the explicit empty-fields response is parsed and
is distinguishable from extractor failure. -/
theorem c3_main_failure_marker_distinct_witness :
    aiExtractMain (Outcome.ok emptyFieldsContent) = some emptyFieldsObj ∧
    aiExtractMain Outcome.failed = none ∧
    aiExtractMain (Outcome.ok emptyFieldsContent) ≠ aiExtractMain Outcome.failed :=
  c3_main_failure_marker_distinct emptyFieldsContent emptyFieldsObj rfl

/-- Counterexample for C3 as stated: `telebot.py`'s `ai_extract`
normalizes failure to an object of sentinel fields, which is exactly
what a model response explicitly containing those sentinels parses to
— the caller cannot distinguish the two. -/
theorem c3_counterexample :
    aiExtractTb Outcome.failed = JVal.obj tbFailKvs ∧
    aiExtractTb (Outcome.ok tbSentinelContent) = aiExtractTb Outcome.failed :=
  ⟨rfl, rfl⟩

/-- C4 (code bug): the first-two-token Name heuristic exists in the
source (`name_guess`, `main.py` lines 260-261) and computes
`"Jane Doe"` from `"Jane Doe Realty Group"`, but it sits in an
unreachable module-level fragment; the executed merge receives `None`
on AI failure and produces no record at all, while `telebot.py`'s
sentinel-object failure value yields Name `"Not Found"`. -/
theorem c4_fallback_heuristic_unreachable (rx : RegexData) :
    mergeMain none rx = none ∧
    (mergeCard tbFailKvs rx).Name = JVal.str "Not Found" ∧
    name_guess "Jane Doe Realty Group" = "Jane Doe" :=
  ⟨rfl, rfl, rfl⟩

/-- C5 (code bug): the defensive parse does recover the JSON object
embedded in noise (the strict parse fails, the brace-substring parse
succeeds), but the live merge stores the Services value as the raw
list `["Consulting"]` — the joined string `"Consulting"` is produced
only by unreachable fragments. -/
theorem c5_services_stay_raw_list (rx : RegexData) :
    jsonParse c5content = none ∧
    safe_json_load c5content = some (JVal.obj c5kvs) ∧
    (mergeCard c5kvs rx).Services = JVal.arr [JVal.str "Consulting"] ∧
    (mergeCard c5kvs rx).Services ≠ JVal.str "Consulting" := by
  refine ⟨rfl, rfl, rfl, ?_⟩
  rw [show (mergeCard c5kvs rx).Services = JVal.arr [JVal.str "Consulting"] from rfl]
  intro h
  exact JVal.noConfusion h

/-- C6: a follow-up text message for a conversation with no stored
record yields the "send an image first" reply and never a
language-model query. -/
theorem c6_no_record_prompts_for_image (store : Nat → Option Record)
    (cid : Nat) (q : String) (h : store cid = none) :
    textHandler store cid q = TextAction.promptForImage ∧
    ∀ (c i s : JVal) (qq : String),
      textHandler store cid q ≠ TextAction.llmQuery c i s qq := by
  have ht : textHandler store cid q = TextAction.promptForImage := by
    unfold textHandler
    rw [h]
  refine ⟨ht, ?_⟩
  intro c i s qq hq
  rw [ht] at hq
  exact TextAction.noConfusion hq

/-- Witness for C6 at an empty context store. -/
theorem c6_no_record_prompts_for_image_witness :
    textHandler (fun _ => none) 7 "h0w big is the market" = TextAction.promptForImage :=
  (c6_no_record_prompts_for_image (fun _ => none) 7 "h0w big is the market" rfl).1

/-- C7: a second `put` for the same conversation overwrites the slot
entirely (no field merging), and a `put` never disturbs another
conversation's slot. -/
theorem c7_context_single_slot (m : Nat → Option Record) (c c2 : Nat)
    (r1 r2 : Record) :
    contextPut (contextPut m c r1) c r2 c = some r2 ∧
    (c2 ≠ c → contextPut m c r1 c2 = m c2) := by
  constructor
  · unfold contextPut
    simp
  · intro h
    unfold contextPut
    simp [h]

/-- Witness for C7 at concrete records and conversation ids. -/
theorem c7_context_single_slot_witness :
    contextPut (contextPut (fun _ => none) 1 recA) 1 recB 1 = some recB ∧
    contextPut (fun _ => none) 1 recA 2 = none :=
  ⟨(c7_context_single_slot (fun _ => none) 1 2 recA recB).1,
   (c7_context_single_slot (fun _ => none) 1 2 recA recB).2 (by decide)⟩

/-- C8 (amended): `extract_phone` returns the leftmost regex match:
on a text beginning with `"+91 9876543210"` it returns exactly that
string, and on any text containing that substring it never returns the
sentinel — but an earlier match in the text wins (see the
counterexample). -/
theorem c8_phone_leftmost_match :
    extract_phone "+91 9876543210" = "+91 9876543210" ∧
    ∀ t : String, containsSeq pat91 t.data = true →
      extract_phone t ≠ "Not Found" := by
  refine ⟨rfl, ?_⟩
  intro t hcont
  unfold extract_phone
  rcases hs : scanPhone none t.data with _ | m
  · have hsome := scanPhone_isSome t.data none hcont
    rw [hs] at hsome
    exact absurd hsome (by simp)
  · intro he
    have hm : m.head? = some 'N' := by
      have hdata : m = "Not Found".data := by
        have := congrArg String.data he
        simpa using this
      rw [hdata]
      rfl
    rcases scanPhone_val t.data none m hs with ⟨r, hr⟩ | ⟨d, ds, hds, hd⟩
    · rw [hr] at hm
      simp only [List.head?_cons, Option.some.injEq] at hm
      exact absurd hm (by decide)
    · rw [hds] at hm
      simp only [List.head?_cons, Option.some.injEq] at hm
      rw [hm] at hd
      exact absurd hd (by decide)

/-- Witness for C8 on a text that contains the phone substring amid
other words. -/
theorem c8_phone_leftmost_match_witness :
    extract_phone "ca11 +91 9876543210 n0w" ≠ "Not Found" :=
  c8_phone_leftmost_match.2 "ca11 +91 9876543210 n0w" (by decide)

/-- Counterexample for C8 as stated: a text that contains
`"+91 9876543210"` but starts with another 10-digit number makes
`extract_phone` return that earlier match, not the `+91` number (and
not its `+91`-stripped form). -/
theorem c8_counterexample :
    containsSeq pat91 "1234567890 +91 9876543210".data = true ∧
    extract_phone "1234567890 +91 9876543210" = "1234567890" ∧
    "1234567890" ≠ "+91 9876543210" ∧ "1234567890" ≠ "9876543210" :=
  ⟨by decide, rfl, by decide, by decide⟩

/-- C9: the output of `clean_text` never has two adjacent whitespace
characters, leading or trailing whitespace, or a newline; consequently
a second application changes the string only if the substitution table
fires again — when the table is inert on the output, `clean_text` is
idempotent there. -/
theorem c9_normalizer_ws_idempotent (x : String) :
    (okRun (clean_text x).data = true ∧ headWs (clean_text x).data = false ∧
      lastWs (clean_text x).data = false ∧ '\n' ∉ (clean_text x).data) ∧
    (tableApply (clean_text x).data = (clean_text x).data →
      clean_text (clean_text x) = clean_text x) := by
  have hok : okRun (clean_list x.data) = true := okRun_clean_list x.data
  have hhd : headWs (clean_list x.data) = false := headWs_clean_list x.data
  have hlw : lastWs (clean_list x.data) = false := lastWs_clean_list x.data
  have hnl : '\n' ∉ clean_list x.data := noNl_clean_list x.data
  constructor
  · refine ⟨?_, ?_, ?_, ?_⟩ <;> rw [clean_text_data]
    · exact hok
    · exact hhd
    · exact hlw
    · exact hnl
  · intro htab
    rw [clean_text_data] at htab
    have h2 : clean_list (clean_list x.data) = clean_list x.data :=
      clean_list_fixed _ hok hhd hlw hnl htab
    show String.mk (clean_list (clean_text x).data) = clean_text x
    rw [clean_text_data, h2]
    unfold clean_text
    rfl

/-- Witness for C9: on a substitution-inert output, re-running the
normalizer is the identity. -/
theorem c9_normalizer_ws_idempotent_witness :
    clean_text (clean_text "ACME  CARD") = clean_text "ACME  CARD" :=
  (c9_normalizer_ws_idempotent "ACME  CARD").2 rfl

/-- C10: no output of `clean_text` contains `|`, `I`, `l`, `O` or `o`:
the ordered table rewrites each of them to `1` or `0`, and no later
substitution, the whitespace collapse or the strip reintroduces them. -/
theorem c10_confusable_chars_eliminated (s : String) :
    '|' ∉ (clean_text s).data ∧ 'I' ∉ (clean_text s).data ∧
    'l' ∉ (clean_text s).data ∧ 'O' ∉ (clean_text s).data ∧
    'o' ∉ (clean_text s).data := by
  refine ⟨?_, ?_, ?_, ?_, ?_⟩ <;> intro h <;> rw [clean_text_data] at h
  · rcases mem_clean_list _ _ h with h | h
    · exact noPipe_tableApply _ h
    · exact absurd h (by decide)
  · rcases mem_clean_list _ _ h with h | h
    · exact noCapI_tableApply _ h
    · exact absurd h (by decide)
  · rcases mem_clean_list _ _ h with h | h
    · exact noLowL_tableApply _ h
    · exact absurd h (by decide)
  · rcases mem_clean_list _ _ h with h | h
    · exact noCapO_tableApply _ h
    · exact absurd h (by decide)
  · rcases mem_clean_list _ _ h with h | h
    · exact noLowO_tableApply _ h
    · exact absurd h (by decide)
